import Mathlib

/-!
# GnuCash option core (`libgnucash/app-utils/gnc-option.hpp`)

A shallow embedding of the inline functions of `gnc-option.hpp`
(`operator<`, `operator<<`, `operator>>`, `output_color_value`) and of the
declaration of `GncOption::get_limits`, followed by theorems about them.

Conventions of the embedding.

* A `std::string` is a `List Char`; every element stands for one `char`.
* A `std::ostream` is the text written to it so far.  The stream is taken to
  be in good state, with zero field width, without `showpos`, and with the
  classic locale.
* A C++ call that may throw returns `Except`; the error carries what the
  caller can observe at the throw.
-/

set_option autoImplicit false

namespace GncOptionSpec

/-! ## Standard library pieces used by `output_color_value` -/

/-- A `std::string`: a sequence of `char`. -/
abbrev CppString := List Char

/-- The text held by a `std::ostream`. -/
abbrev OStream := List Char

/-- The two exceptions `std::string::substr` and `std::stoi` throw. -/
inductive StdException where
  | invalid_argument
  | out_of_range
  deriving DecidableEq

/-- The function `std::string::substr(pos, n)`: throws `out_of_range` when
`pos > size()`, otherwise the characters `[pos, min(pos + n, size()))`. -/
def substr (s : CppString) (pos n : Nat) : Except StdException CppString :=
  if pos > s.length then .error .out_of_range
  else .ok ((s.drop pos).take n)

/-- The function `isspace` of the classic locale. -/
def isspace (c : Char) : Bool :=
  c = ' ' || c = '\t' || c = '\n' || c = '\x0b' || c = '\x0c' || c = '\r'

/-- Value of a character as a digit for `strtol`: `0-9`, then letters of
either case for ten to thirty-five. -/
def digitValue (c : Char) : Option Nat :=
  if '0' ≤ c ∧ c ≤ '9' then some (c.toNat - '0'.toNat)
  else if 'a' ≤ c ∧ c ≤ 'z' then some (c.toNat - 'a'.toNat + 10)
  else if 'A' ≤ c ∧ c ≤ 'Z' then some (c.toNat - 'A'.toNat + 10)
  else none

/-- The digit loop of `strtol`: consumes the longest run of digits below
`base`, returning the accumulated value and how many characters were
consumed. -/
def strtolDigits (base : Nat) : CppString → Nat → Nat → Nat × Nat
  | [], acc, cnt => (acc, cnt)
  | c :: cs, acc, cnt =>
    match digitValue c with
    | some d => if d < base then strtolDigits base cs (acc * base + d) (cnt + 1) else (acc, cnt)
    | none => (acc, cnt)

/-- Skipping of leading white space in `strtol`. -/
def skipSpace : CppString → CppString
  | [] => []
  | c :: cs => if isspace c then skipSpace cs else c :: cs

/-- The optional sign of `strtol`: whether the number is negative, and the
text after the sign. -/
def readSign : CppString → Bool × CppString
  | '-' :: r => (true, r)
  | '+' :: r => (false, r)
  | r => (false, r)

/-- The optional prefix `0x` or `0X` of `strtol` in base 16: whether it was
read, and the text after it. -/
def readPrefix (base : Nat) : CppString → Bool × CppString
  | '0' :: x :: r =>
    if base = 16 ∧ (x = 'x' ∨ x = 'X') then (true, r) else (false, '0' :: x :: r)
  | r => (false, r)

/-- The function `strtol(s, &end, base)` for a base from 2 to 36, without the
clamping to `long`: the mathematical value of the subject sequence, or `none`
when no conversion is performed (`end == s`).  White space is skipped, one
optional sign is read, and for base 16 an optional `0x`/`0X` prefix; a
prefix followed by no hexadecimal digit converts the `0` alone. -/
def strtol (s : CppString) (base : Nat) : Option Int :=
  let sign := readSign (skipSpace s)
  let pre := readPrefix base sign.2
  let digits := strtolDigits base pre.2 0 0
  if digits.2 = 0 then
    if pre.1 then some 0 else none
  else
    some (if sign.1 then - (digits.1 : Int) else (digits.1 : Int))

/-- Smallest `int`. -/
def INT_MIN : Int := - 2 ^ 31

/-- Largest `int`. -/
def INT_MAX : Int := 2 ^ 31 - 1

/-- The function `std::stoi(str, nullptr, base)`: `invalid_argument` when
`strtol` converts nothing, `out_of_range` when the value does not fit `int`. -/
def stoi (str : CppString) (base : Nat) : Except StdException Int :=
  match strtol str base with
  | none => .error .invalid_argument
  | some v => if v < INT_MIN ∨ INT_MAX < v then .error .out_of_range else .ok v

/-- The conversion `static_cast<float>(int)`.  Every `int` of magnitude at
most `2 ^ 24` is a `float`, so on such values the conversion is the identity
(`stoi_substr_range` shows that no other value reaches it). -/
def static_cast_float (n : Int) : Int := n

/-- Text of a number with an integral value under `std::fixed`,
`std::showpoint` and `std::setprecision(1)`: sign, integer part, the point
and one fractional digit. -/
def fixed1 (n : Int) : List Char :=
  (if n < 0 then ['-'] else []) ++ Nat.toDigits 10 n.natAbs ++ ['.', '0']

/-- Insertion of a string literal, `oss << "..."`. -/
def put_str (oss : OStream) (s : String) : OStream := oss ++ s.toList

/-- Insertion of a floating value with an integral value, after line 194 has
put the stream in fixed notation with one digit. -/
def put_float (oss : OStream) (n : Int) : OStream := oss ++ fixed1 n

/-! ## `output_color_value` (lines 190–206) -/

/-- The `for` loop of `output_color_value`, from index `i` on.  An exception
leaves the loop with the text written before it. -/
def color_loop (value : CppString) (len : Nat) (i : Nat) (oss : OStream) :
    Except (StdException × OStream) OStream :=
  if i < len then
    match substr value i 2 with
    | .error e => .error (e, oss)
    | .ok group =>
      match stoi group 16 with
      | .error e => .error (e, oss)
      | .ok n =>
        let oss1 := put_float oss (static_cast_float n)
        let oss2 := if i < 6 then put_str oss1 " " else oss1
        color_loop value len (i + 2) oss2
  else .ok oss
termination_by len - i
decreasing_by omega

/-- The function `output_color_value(oss, value)`. -/
def output_color_value (oss : OStream) (value : CppString) :
    Except (StdException × OStream) OStream :=
  let oss0 := put_str oss "'("
  let len := if value.length > 8 then 8 else value.length
  match color_loop value len 0 oss0 with
  | .error e => .error e
  | .ok oss1 =>
    let oss2 := if len < 8 then put_float oss1 256 else oss1
    .ok (put_str oss2 ")")

/-! ## The option and its ordering (lines 88–176) -/

/-- Modelled from the spec: the class `OptionClassifier` is only
forward-declared (line 37).  Section 3 of the specification gives an option
the identity strings section, name and key, and a documentation string. -/
structure OptionClassifier where
  section_ : CppString
  name : CppString
  key : CppString
  doc_string : CppString
  deriving DecidableEq

/-- Modelled from the spec: the value classes are only forward-declared
(lines 48–54).  Each is an `OptionClassifier` (the trait of lines 56–61) and,
by section 3 of the specification, holds a default and a current value, with
the user-interface hint and the alternate flag. -/
structure OptionValue (T : Type) where
  classifier : OptionClassifier
  ui_type : Nat
  alternate : Bool
  default_value : T
  value : T
  deriving DecidableEq

/-- Modelled from the spec: a range value adds the bounds and the step to the
default and current value. -/
structure RangeValue (T : Type) where
  base : OptionValue T
  min : T
  max : T
  step : T
  deriving DecidableEq

/-- A `double`, kept as its bit pattern; no arithmetic is done on it. -/
structure CppDouble where
  bits : Nat
  deriving DecidableEq

/-- The type `GncOptionVariant` (lines 88–102): one constructor for each
alternative, in the order of the source.  Pointers and `SCM` are addresses. -/
inductive GncOptionVariant where
  | ValueString (v : OptionValue CppString)
  | ValueBool (v : OptionValue Bool)
  | ValueInt64 (v : OptionValue Int)
  | ValueQofInstance (v : OptionValue Nat)
  | ValueQofQuery (v : OptionValue Nat)
  | ValueGncOwner (v : OptionValue Nat)
  | ValueSCM (v : OptionValue Nat)
  | AccountListValue (v : OptionValue (List Nat))
  | AccountSelValue (v : OptionValue Nat)
  | MultichoiceValue (v : OptionValue CppString)
  | RangeValueInt (v : RangeValue Int)
  | RangeValueDouble (v : RangeValue CppDouble)
  | ValidatedValueQofInstance (v : OptionValue Nat)
  | ValidatedValueQofQuery (v : OptionValue Nat)
  | DateValue (v : OptionValue Nat)
  deriving DecidableEq

/-- The classifier of the active alternative. -/
def GncOptionVariant.classifier : GncOptionVariant → OptionClassifier
  | .ValueString v => v.classifier
  | .ValueBool v => v.classifier
  | .ValueInt64 v => v.classifier
  | .ValueQofInstance v => v.classifier
  | .ValueQofQuery v => v.classifier
  | .ValueGncOwner v => v.classifier
  | .ValueSCM v => v.classifier
  | .AccountListValue v => v.classifier
  | .AccountSelValue v => v.classifier
  | .MultichoiceValue v => v.classifier
  | .RangeValueInt v => v.base.classifier
  | .RangeValueDouble v => v.base.classifier
  | .ValidatedValueQofInstance v => v.classifier
  | .ValidatedValueQofQuery v => v.classifier
  | .DateValue v => v.classifier

/-- The traits `is_RangeValue` (lines 76–85) on the active alternative. -/
def GncOptionVariant.is_RangeValue : GncOptionVariant → Bool
  | .RangeValueInt _ => true
  | .RangeValueDouble _ => true
  | _ => false

/-- The class `GncOption` (lines 113–170): its two data members.  The bound
user-interface item is the address of the owned widget, if any. -/
structure GncOption where
  m_option : GncOptionVariant
  m_ui_item : Option Nat
  deriving DecidableEq

/-- Modelled from the spec: the body of `GncOption::get_key` (declared at
line 137) is absent; by section 3 of the specification it returns the key of
the option, which is held by the active alternative. -/
def GncOption.get_key (self : GncOption) : CppString :=
  self.m_option.classifier.key

/-- The function `std::char_traits<char>::compare(s1, s2, n)`: the sign of the
first difference among the first `n` characters, zero when there is none. -/
def traits_compare : CppString → CppString → Nat → Int
  | a :: as, b :: bs, n + 1 =>
    if a < b then -1 else if b < a then 1 else traits_compare as bs n
  | _, _, _ => 0

/-- The function `std::string::compare`: the common prefix is compared with
`traits_compare`, and when it holds no difference the sizes decide. -/
def string_compare (s t : CppString) : Int :=
  let r := traits_compare s t (Nat.min s.length t.length)
  if r ≠ 0 then r else (s.length : Int) - (t.length : Int)

/-- The operator `<` of `std::string`. -/
def string_lt (s t : CppString) : Bool := decide (string_compare s t < 0)

/-- The operator `<` of options (lines 172–176). -/
def GncOption.operator_lt (right left : GncOption) : Bool :=
  string_lt right.get_key left.get_key

/-! ## `get_limits` (lines 148–149) -/

/-- What a caller observes of a call: it returns, an exception reaches the
caller, or the process is terminated. -/
inductive CallOutcome (ε α : Type) where
  | returned (a : α)
  | raised (e : ε)
  | terminated
  deriving DecidableEq

/-- The specifier `noexcept`: an exception that leaves the body of the
function calls `std::terminate`; none reaches the caller. -/
def noexcept_call {ε α : Type} (body : Except ε α) : CallOutcome ε α :=
  match body with
  | .ok a => .returned a
  | .error _ => .terminated

/-- Modelled from the spec: the error conditions of section 7 of the
specification; the header declares no exception type. -/
inductive OptionError where
  | TypeMismatch
  | OutOfRange
  | NotPermissible
  | ParseFailure
  deriving DecidableEq

/-- The member `GncOption::get_limits` as declared: `const`, of return type
`void`, `noexcept`, with three reference parameters.  Its body is absent from
the header and is a parameter: given the option and the three referenced
values it yields their new contents or throws. -/
def GncOption.get_limits {ε T : Type}
    (body : GncOption → T × T × T → Except ε (T × T × T))
    (self : GncOption) (refs : T × T × T) : CallOutcome ε (T × T × T) :=
  noexcept_call (body self refs)

/-! ## The stream operators (lines 178–188) -/

/-- The members `out_stream` and `in_stream` (lines 158–159), whose bodies are
absent from the header.  A stream is named by its address; `σ` is the state of
all streams.  `out_stream` is `const` and returns a stream; `in_stream` may
change the option. -/
structure StreamCodec (ε σ : Type) where
  out_stream : GncOption → Nat → σ → Except ε (Nat × σ)
  in_stream : GncOption → Nat → σ → Except ε (Nat × GncOption × σ)

/-- The operator `<<` (lines 178–182). -/
def operator_shl {ε σ : Type} (codec : StreamCodec ε σ) (oss : Nat) (opt : GncOption)
    (st : σ) : Except ε (Nat × σ) :=
  codec.out_stream opt oss st

/-- The operator `>>` (lines 184–188). -/
def operator_shr {ε σ : Type} (codec : StreamCodec ε σ) (iss : Nat) (opt : GncOption)
    (st : σ) : Except ε (Nat × GncOption × σ) :=
  codec.in_stream opt iss st

/-! ## Words of the specification -/

/-- The hexadecimal digits: `0-9`, `a-f`, `A-F`. -/
def hexDigits : List Char := "0123456789abcdefABCDEF".toList

/-- A character is a hexadecimal digit. -/
def isHexDigit (c : Char) : Prop := c ∈ hexDigits

instance (c : Char) : Decidable (isHexDigit c) := by
  unfold isHexDigit; infer_instance

/-- Value of a hexadecimal digit. -/
def hexVal (c : Char) : Nat :=
  if c.isDigit then c.toNat - 48
  else if c.isLower then c.toNat - 87
  else c.toNat - 55

/-- The 2-character group that starts at index `i`, read as a base-16
number (a group cut short by the end of the string has one digit). -/
def hexGroupValue (value : CppString) (i : Nat) : Nat :=
  ((value.drop i).take 2).foldl (fun acc c => 16 * acc + hexVal c) 0

/-- A natural number printed in decimal with exactly one decimal digit. -/
def oneDecimal (n : Nat) : List Char := (Nat.repr n).toList ++ ".0".toList

/-- Start indices of the groups the loop visits. -/
def groupStarts (value : CppString) : List Nat :=
  [0, 2, 4, 6].filter (fun i => decide (i < Nat.min value.length 8))

/-- Text of one group: its number, and a space unless it starts at 6. -/
def groupText (value : CppString) (i : Nat) : List Char :=
  oneDecimal (hexGroupValue value i) ++ (if i < 6 then " ".toList else [])

/-- The whole text for a string of hexadecimal digits. -/
def colorText (value : CppString) : List Char :=
  "'(".toList ++ ((groupStarts value).map (groupText value)).flatten
    ++ (if Nat.min value.length 8 < 8 then "256.0".toList else []) ++ ")".toList

/-- Two options are incomparable: neither is less than the other. -/
def incomparable (A B : GncOption) : Prop :=
  A.operator_lt B = false ∧ B.operator_lt A = false

/-- A scalar text option with the given identity. -/
def textOption (sec name key : String) : GncOption :=
  { m_option := .ValueString
      { classifier := { section_ := sec.toList, name := name.toList, key := key.toList,
                        doc_string := [] },
        ui_type := 0, alternate := false, default_value := [], value := [] },
    m_ui_item := none }

/-! ## Lemmas on `substr`, `strtol` and `stoi` -/

theorem stoi_hex_pair (a b : Char) (ha : isHexDigit a) (hb : isHexDigit b) :
    stoi [a, b] 16 = .ok ((16 * hexVal a + hexVal b : Nat) : Int) := by
  simp only [isHexDigit, hexDigits, String.toList, List.mem_cons, List.mem_singleton,
    List.not_mem_nil, or_false] at ha hb
  rcases ha with rfl | rfl | rfl | rfl | rfl | rfl | rfl | rfl | rfl | rfl | rfl | rfl | rfl | rfl | rfl | rfl | rfl | rfl | rfl | rfl | rfl | rfl <;>
  rcases hb with rfl | rfl | rfl | rfl | rfl | rfl | rfl | rfl | rfl | rfl | rfl | rfl | rfl | rfl | rfl | rfl | rfl | rfl | rfl | rfl | rfl | rfl <;>
  rfl

theorem stoi_hex_single (a : Char) (ha : isHexDigit a) :
    stoi [a] 16 = .ok ((hexVal a : Nat) : Int) := by
  simp only [isHexDigit, hexDigits, String.toList, List.mem_cons, List.mem_singleton,
    List.not_mem_nil, or_false] at ha
  rcases ha with rfl | rfl | rfl | rfl | rfl | rfl | rfl | rfl | rfl | rfl | rfl | rfl | rfl | rfl | rfl | rfl | rfl | rfl | rfl | rfl | rfl | rfl <;>
  rfl

theorem hexVal_lt (a : Char) (ha : isHexDigit a) : hexVal a < 16 := by
  simp only [isHexDigit, hexDigits, String.toList, List.mem_cons, List.mem_singleton,
    List.not_mem_nil, or_false] at ha
  rcases ha with rfl | rfl | rfl | rfl | rfl | rfl | rfl | rfl | rfl | rfl | rfl | rfl | rfl | rfl | rfl | rfl | rfl | rfl | rfl | rfl | rfl | rfl <;>
  decide

theorem strtolDigits_bound (base : Nat) (hb : 0 < base) (s : CppString) :
    ∀ acc cnt : Nat, (strtolDigits base s acc cnt).1 + 1 ≤ (acc + 1) * base ^ s.length := by
  induction s with
  | nil => intro acc cnt; simp [strtolDigits]
  | cons c cs ih =>
    intro acc cnt
    have hpow : 1 ≤ base ^ (c :: cs).length := Nat.one_le_pow _ _ hb
    have hstay : acc + 1 ≤ (acc + 1) * base ^ (c :: cs).length :=
      Nat.le_mul_of_pos_right _ hpow
    unfold strtolDigits
    cases hd : digitValue c with
    | none => exact hstay
    | some d =>
      by_cases hlt : d < base
      · simp only [hlt, if_true]
        calc (strtolDigits base cs (acc * base + d) (cnt + 1)).1 + 1
            ≤ (acc * base + d + 1) * base ^ cs.length := ih _ _
          _ ≤ ((acc + 1) * base) * base ^ cs.length := by
              apply Nat.mul_le_mul_right
              rw [Nat.add_mul, Nat.one_mul]
              omega
          _ = (acc + 1) * base ^ (c :: cs).length := by
              rw [List.length_cons, Nat.pow_succ, Nat.mul_assoc, Nat.mul_comm base]
      · simp only [hlt, if_false]
        exact hstay

theorem skipSpace_length_le (s : CppString) : (skipSpace s).length ≤ s.length := by
  induction s with
  | nil => simp [skipSpace]
  | cons c cs ih =>
    unfold skipSpace
    split
    · simp only [List.length_cons]; omega
    · exact Nat.le_refl _

theorem readSign_length (s : CppString) :
    (readSign s).2.length ≤ s.length
    ∧ ((readSign s).1 = true → (readSign s).2.length + 1 ≤ s.length) := by
  unfold readSign
  split <;> simp

theorem readPrefix_length (base : Nat) (s : CppString) :
    (readPrefix base s).2.length ≤ s.length := by
  unfold readPrefix
  split
  · split
    · simp only [List.length_cons]; omega
    · exact Nat.le_refl _
  · exact Nat.le_refl _

theorem strtol_bound (s : CppString) (v : Int) (h : strtol s 16 = some v) :
    v ≤ 16 ^ s.length - 1 ∧ - (16 ^ (s.length - 1) - 1 : Int) ≤ v := by
  unfold strtol at h
  have h1 := skipSpace_length_le s
  have h2 := readSign_length (skipSpace s)
  have h3 := readPrefix_length 16 (readSign (skipSpace s)).2
  have h4 := strtolDigits_bound 16 (by decide) (readPrefix 16 (readSign (skipSpace s)).2).2 0 0
  simp only [Nat.zero_add, Nat.one_mul] at h4
  have p1 : (1 : Int) ≤ 16 ^ s.length := by
    exact_mod_cast Nat.one_le_pow s.length 16 (by decide)
  have p2 : (1 : Int) ≤ 16 ^ (s.length - 1) := by
    exact_mod_cast Nat.one_le_pow (s.length - 1) 16 (by decide)
  have m1 : 16 ^ (readPrefix 16 (readSign (skipSpace s)).2).2.length ≤ 16 ^ s.length :=
    Nat.pow_le_pow_right (by decide) (by omega)
  have b1 : (((strtolDigits 16 (readPrefix 16 (readSign (skipSpace s)).2).2 0 0).1 : Nat) : Int)
      + 1 ≤ 16 ^ s.length := by
    exact_mod_cast Nat.le_trans h4 m1
  simp only [] at h
  split at h
  · split at h
    · cases h
      constructor <;> omega
    · cases h
  · cases hsg : (readSign (skipSpace s)).1 with
    | true =>
      simp only [hsg, if_true] at h
      cases h
      have m2 : 16 ^ (readPrefix 16 (readSign (skipSpace s)).2).2.length
          ≤ 16 ^ (s.length - 1) :=
        Nat.pow_le_pow_right (by decide) (by have := h2.2 hsg; omega)
      have b2 : (((strtolDigits 16 (readPrefix 16 (readSign (skipSpace s)).2).2 0 0).1 : Nat)
          : Int) + 1 ≤ 16 ^ (s.length - 1) := by
        exact_mod_cast Nat.le_trans h4 m2
      constructor <;> omega
    | false =>
      simp only [hsg, Bool.false_eq_true, if_false] at h
      cases h
      constructor <;> omega

/-- Every group the loop hands to `stoi` has at most two characters, so a value
`stoi` returns lies between -15 and 255: the conversion to `float` is exact. -/
theorem stoi_substr_range (value : CppString) (i : Nat) (g : CppString) (n : Int)
    (hg : substr value i 2 = .ok g) (hn : stoi g 16 = .ok n) : -15 ≤ n ∧ n ≤ 255 := by
  have hlen : g.length ≤ 2 := by
    unfold substr at hg
    split at hg
    · cases hg
    · cases hg
      rw [List.length_take]; omega
  unfold stoi at hn
  cases hv : strtol g 16 with
  | none => simp [hv] at hn
  | some v =>
    simp only [hv] at hn
    split at hn
    · cases hn
    · cases hn
      have hb := strtol_bound g n hv
      have c : g.length = 0 ∨ g.length = 1 ∨ g.length = 2 := by omega
      rcases c with c | c | c <;> rw [c] at hb <;> norm_num at hb <;> constructor <;> omega

theorem hexGroupValue_le (value : CppString) (i : Nat)
    (h : ∀ c ∈ (value.drop i).take 2, isHexDigit c) : hexGroupValue value i ≤ 255 := by
  unfold hexGroupValue
  have hl : ((value.drop i).take 2).length ≤ 2 := by
    rw [List.length_take]; omega
  revert h hl
  generalize (value.drop i).take 2 = l
  intro h hl
  match l, h, hl with
  | [], _, _ => simp
  | [a], h, _ =>
    have ha := hexVal_lt a (h a (by simp))
    simp only [List.foldl_cons, List.foldl_nil]
    omega
  | [a, b], h, _ =>
    have ha := hexVal_lt a (h a (by simp))
    have hb := hexVal_lt b (h b (by simp))
    simp only [List.foldl_cons, List.foldl_nil]
    omega
  | _ :: _ :: _ :: _, _, hl => simp at hl

theorem fixed1_natCast (n : Nat) : fixed1 ((n : Nat) : Int) = oneDecimal n := by
  have h : ¬ ((n : Int) < 0) := by omega
  simp [fixed1, oneDecimal, h, Nat.repr, List.asString]

theorem fixed1_256 : fixed1 256 = "256.0".toList := by decide

set_option maxRecDepth 100000 in
theorem oneDecimal_no_space (n : Nat) (h : n ≤ 255) : ' ' ∉ oneDecimal n := by
  have key : ∀ m < 256, ' ' ∉ oneDecimal m := by decide
  exact key n (by omega)

theorem mem_take_of_mem_take_drop (value : CppString) (i : Nat) (c : Char)
    (hi : i + 2 ≤ 8) (h : c ∈ (value.drop i).take 2) : c ∈ value.take 8 := by
  have e : ((value.take 8).drop i).take 2 = (value.drop i).take 2 := by
    rw [List.drop_take, List.take_take]
    congr 1
    omega
  rw [← e] at h
  exact List.mem_of_mem_drop (List.mem_of_mem_take h)

theorem substr_take_eight (value : CppString) (i : Nat) (hlen : 8 < value.length)
    (hi : i < 8) (heven : i % 2 = 0) :
    substr (value.take 8) i 2 = substr value i 2 := by
  unfold substr
  have l8 : (value.take 8).length = 8 := by
    rw [List.length_take]; omega
  have c1 : ¬ i > (value.take 8).length := by omega
  have c2 : ¬ i > value.length := by omega
  simp only [c1, c2, if_false]
  rw [List.drop_take, List.take_take]
  congr 2
  omega

/-! ## Lemmas on the loop of `output_color_value` -/

theorem color_loop_step (value : CppString) (len i : Nat) (oss : OStream)
    (g : CppString) (n : Int) (hi : i < len) (hg : substr value i 2 = .ok g)
    (hn : stoi g 16 = .ok n) :
    color_loop value len i oss =
      color_loop value len (i + 2)
        (if i < 6 then oss ++ fixed1 n ++ [' '] else oss ++ fixed1 n) := by
  rw [color_loop]
  simp only [hi, if_true, hg, hn, put_float, put_str, static_cast_float]
  rfl

theorem color_loop_exit (value : CppString) (len i : Nat) (oss : OStream)
    (hi : ¬ i < len) : color_loop value len i oss = .ok oss := by
  rw [color_loop]
  simp only [hi, if_false]

theorem color_loop_step_nat (value : CppString) (len i : Nat) (oss : OStream)
    (g : CppString) (n : Nat) (hi : i < len) (hg : substr value i 2 = .ok g)
    (hn : stoi g 16 = .ok ((n : Nat) : Int)) :
    color_loop value len i oss =
      color_loop value len (i + 2)
        (if i < 6 then oss ++ oneDecimal n ++ [' '] else oss ++ oneDecimal n) := by
  rw [color_loop_step value len i oss g _ hi hg hn, fixed1_natCast]

theorem color_loop_congr (v w : CppString) (len : Nat)
    (h : ∀ i, i < len → i % 2 = 0 → substr v i 2 = substr w i 2) :
    ∀ (k i : Nat) (oss : OStream), len - i ≤ k → i % 2 = 0 →
      color_loop v len i oss = color_loop w len i oss := by
  intro k
  induction k with
  | zero =>
    intro i oss hk _
    rw [color_loop_exit v len i oss (by omega), color_loop_exit w len i oss (by omega)]
  | succ k ih =>
    intro i oss hk heven
    by_cases hi : i < len
    · conv_lhs => rw [color_loop]
      conv_rhs => rw [color_loop]
      simp only [hi, if_true, h i hi heven]
      cases substr w i 2 with
      | error e => rfl
      | ok g =>
        dsimp only
        cases stoi g 16 with
        | error e => rfl
        | ok n => exact ih (i + 2) _ (by omega) (by omega)
    · rw [color_loop_exit v len i oss hi, color_loop_exit w len i oss hi]

theorem output_color_value_hex (oss : OStream) (value : CppString)
    (hhex : ∀ c ∈ value.take 8, isHexDigit c) :
    output_color_value oss value = .ok (oss ++ colorText value) := by
  match value, hhex with
  | [], _ =>
    simp only [output_color_value, List.length_nil]
    rw [color_loop_exit _ _ _ _ (by simp)]
    simp [colorText, groupStarts, put_str, put_float, fixed1_256]
  | [a], h =>
    have ha := h a (by simp)
    simp only [output_color_value, List.length_cons, List.length_nil]
    rw [color_loop_step_nat _ _ 0 _ [a] _ (by simp) (by simp [substr])
      (stoi_hex_single a ha)]
    rw [color_loop_exit _ _ _ _ (by simp)]
    simp [colorText, groupStarts, groupText, hexGroupValue, put_str, put_float, fixed1_256]
  | [a, b], h =>
    have ha := h a (by simp)
    have hb := h b (by simp)
    simp only [output_color_value, List.length_cons, List.length_nil]
    rw [color_loop_step_nat _ _ 0 _ [a, b] _ (by simp) (by simp [substr])
      (stoi_hex_pair a b ha hb)]
    rw [color_loop_exit _ _ _ _ (by simp)]
    simp [colorText, groupStarts, groupText, hexGroupValue, put_str, put_float, fixed1_256]
  | [a, b, c], h =>
    have ha := h a (by simp)
    have hb := h b (by simp)
    have hc := h c (by simp)
    simp only [output_color_value, List.length_cons, List.length_nil]
    rw [color_loop_step_nat _ _ 0 _ [a, b] _ (by simp) (by simp [substr])
      (stoi_hex_pair a b ha hb)]
    rw [color_loop_step_nat _ _ 2 _ [c] _ (by simp) (by simp [substr])
      (stoi_hex_single c hc)]
    rw [color_loop_exit _ _ _ _ (by simp)]
    simp [colorText, groupStarts, groupText, hexGroupValue, put_str, put_float, fixed1_256]
  | [a, b, c, d], h =>
    have ha := h a (by simp)
    have hb := h b (by simp)
    have hc := h c (by simp)
    have hd := h d (by simp)
    simp only [output_color_value, List.length_cons, List.length_nil]
    rw [color_loop_step_nat _ _ 0 _ [a, b] _ (by simp) (by simp [substr])
      (stoi_hex_pair a b ha hb)]
    rw [color_loop_step_nat _ _ 2 _ [c, d] _ (by simp) (by simp [substr])
      (stoi_hex_pair c d hc hd)]
    rw [color_loop_exit _ _ _ _ (by simp)]
    simp [colorText, groupStarts, groupText, hexGroupValue, put_str, put_float, fixed1_256]
  | [a, b, c, d, e], h =>
    have ha := h a (by simp)
    have hb := h b (by simp)
    have hc := h c (by simp)
    have hd := h d (by simp)
    have he := h e (by simp)
    simp only [output_color_value, List.length_cons, List.length_nil]
    rw [color_loop_step_nat _ _ 0 _ [a, b] _ (by simp) (by simp [substr])
      (stoi_hex_pair a b ha hb)]
    rw [color_loop_step_nat _ _ 2 _ [c, d] _ (by simp) (by simp [substr])
      (stoi_hex_pair c d hc hd)]
    rw [color_loop_step_nat _ _ 4 _ [e] _ (by simp) (by simp [substr])
      (stoi_hex_single e he)]
    rw [color_loop_exit _ _ _ _ (by simp)]
    simp [colorText, groupStarts, groupText, hexGroupValue, put_str, put_float, fixed1_256]
  | [a, b, c, d, e, f], h =>
    have ha := h a (by simp)
    have hb := h b (by simp)
    have hc := h c (by simp)
    have hd := h d (by simp)
    have he := h e (by simp)
    have hf := h f (by simp)
    simp only [output_color_value, List.length_cons, List.length_nil]
    rw [color_loop_step_nat _ _ 0 _ [a, b] _ (by simp) (by simp [substr])
      (stoi_hex_pair a b ha hb)]
    rw [color_loop_step_nat _ _ 2 _ [c, d] _ (by simp) (by simp [substr])
      (stoi_hex_pair c d hc hd)]
    rw [color_loop_step_nat _ _ 4 _ [e, f] _ (by simp) (by simp [substr])
      (stoi_hex_pair e f he hf)]
    rw [color_loop_exit _ _ _ _ (by simp)]
    simp [colorText, groupStarts, groupText, hexGroupValue, put_str, put_float, fixed1_256]
  | [a, b, c, d, e, f, g], h =>
    have ha := h a (by simp)
    have hb := h b (by simp)
    have hc := h c (by simp)
    have hd := h d (by simp)
    have he := h e (by simp)
    have hf := h f (by simp)
    have hg := h g (by simp)
    simp only [output_color_value, List.length_cons, List.length_nil]
    rw [color_loop_step_nat _ _ 0 _ [a, b] _ (by simp) (by simp [substr])
      (stoi_hex_pair a b ha hb)]
    rw [color_loop_step_nat _ _ 2 _ [c, d] _ (by simp) (by simp [substr])
      (stoi_hex_pair c d hc hd)]
    rw [color_loop_step_nat _ _ 4 _ [e, f] _ (by simp) (by simp [substr])
      (stoi_hex_pair e f he hf)]
    rw [color_loop_step_nat _ _ 6 _ [g] _ (by simp) (by simp [substr])
      (stoi_hex_single g hg)]
    rw [color_loop_exit _ _ _ _ (by simp)]
    simp [colorText, groupStarts, groupText, hexGroupValue, put_str, put_float, fixed1_256]
  | a :: b :: c :: d :: e :: f :: g :: k :: rest, h =>
    have ha := h a (by simp)
    have hb := h b (by simp)
    have hc := h c (by simp)
    have hd := h d (by simp)
    have he := h e (by simp)
    have hf := h f (by simp)
    have hg := h g (by simp)
    have hk := h k (by simp)
    have hlen : (if (a :: b :: c :: d :: e :: f :: g :: k :: rest).length > 8 then 8
        else (a :: b :: c :: d :: e :: f :: g :: k :: rest).length) = 8 := by
      simp only [List.length_cons]; split <;> omega
    simp only [output_color_value, hlen]
    rw [color_loop_step_nat _ _ 0 _ [a, b] _ (by simp) (by simp [substr])
      (stoi_hex_pair a b ha hb)]
    rw [color_loop_step_nat _ _ 2 _ [c, d] _ (by simp) (by simp [substr])
      (stoi_hex_pair c d hc hd)]
    rw [color_loop_step_nat _ _ 4 _ [e, f] _ (by simp) (by simp [substr])
      (stoi_hex_pair e f he hf)]
    rw [color_loop_step_nat _ _ 6 _ [g, k] _ (by simp) (by simp [substr])
      (stoi_hex_pair g k hg hk)]
    rw [color_loop_exit _ _ _ _ (by simp)]
    simp [colorText, groupStarts, groupText, hexGroupValue, put_str, put_float, fixed1_256]

theorem groupStarts_eq (value : CppString) :
    groupStarts value = [0, 2, 4, 6].filter (fun i => decide (i < value.length)) := by
  unfold groupStarts
  apply List.filter_congr
  intro i hi
  simp only [List.mem_cons, List.mem_singleton, List.not_mem_nil, or_false] at hi
  have : i < 8 := by omega
  simp only [Nat.min_def, decide_eq_decide]
  split <;> omega

theorem count_space_groupText (value : CppString) (i : Nat)
    (h : ' ' ∉ oneDecimal (hexGroupValue value i)) :
    (groupText value i).count ' ' = if i < 6 then 1 else 0 := by
  unfold groupText
  rw [List.count_append, List.count_eq_zero_of_not_mem h]
  split <;> simp

theorem count_space_colorText (value : CppString)
    (h : ∀ i, ' ' ∉ oneDecimal (hexGroupValue value i)) :
    (colorText value).count ' '
      = ([0, 2, 4].filter (fun i => decide (i < value.length))).length := by
  have hc : ∀ i, (groupText value i).count ' ' = if i < 6 then 1 else 0 :=
    fun i => count_space_groupText value i (h i)
  have h1 : List.count ' ' "'(".toList = 0 := by decide
  have h2 : List.count ' ' "256.0".toList = 0 := by decide
  have h3 : List.count ' ' ")".toList = 0 := by decide
  have h4 : List.count ' ' (if Nat.min value.length 8 < 8 then "256.0".toList else []) = 0 := by
    split
    · exact h2
    · rfl
  unfold colorText
  rw [List.count_append, List.count_append, List.count_append, h1, h3, h4, List.count_flatten,
    groupStarts_eq]
  by_cases l0 : 0 < value.length <;> by_cases l2 : 2 < value.length <;>
    by_cases l4 : 4 < value.length <;> by_cases l6 : 6 < value.length <;>
    simp [List.filter_cons, l0, l2, l4, l6, hc]

/-! ## Theorems on `output_color_value` -/

/-- C1: for every string of exactly eight hexadecimal digits the function
writes the opener, the four 2-character groups in order, each read in base 16
(a value of at most 255) and printed in decimal with one decimal digit, with
single spaces between them, and the closer, and nothing else; `FF000080`
gives `'(255.0 0.0 0.0 128.0)`. -/
theorem output_color_value_eight (oss : OStream) (value : CppString)
    (hlen : value.length = 8) (hhex : ∀ c ∈ value, isHexDigit c) :
    output_color_value oss value = .ok (oss ++ "'(".toList
        ++ oneDecimal (hexGroupValue value 0) ++ " ".toList
        ++ oneDecimal (hexGroupValue value 2) ++ " ".toList
        ++ oneDecimal (hexGroupValue value 4) ++ " ".toList
        ++ oneDecimal (hexGroupValue value 6) ++ ")".toList)
    ∧ (∀ i, hexGroupValue value i ≤ 255)
    ∧ output_color_value [] "FF000080".toList = .ok "'(255.0 0.0 0.0 128.0)".toList := by
  refine ⟨?_, ?_, ?_⟩
  · rw [output_color_value_hex oss value (fun c hc => hhex c (List.mem_of_mem_take hc))]
    simp [colorText, groupStarts, groupText, hlen]
  · intro i
    exact hexGroupValue_le value i
      (fun c hc => hhex c (List.mem_of_mem_drop (List.mem_of_mem_take hc)))
  · rw [output_color_value_hex [] _ (by decide)]
    exact congrArg Except.ok (by decide)

theorem output_color_value_eight_witness :
    ("12abCDef".toList.length = 8 ∧ ∀ c ∈ "12abCDef".toList, isHexDigit c)
    ∧ output_color_value "x".toList "12abCDef".toList
        = .ok "x'(18.0 171.0 205.0 239.0)".toList :=
  ⟨⟨by decide, by decide⟩,
   ((output_color_value_eight "x".toList "12abCDef".toList (by decide) (by decide)).1).trans
     (congrArg Except.ok (by decide))⟩

/-- C2 as stated fails: on `FF0000` the text is not `'(255.0 0.0 0.0256.0)`. -/
theorem output_color_value_six_not_fused :
    output_color_value [] "FF0000".toList ≠ .ok "'(255.0 0.0 0.0256.0)".toList := by
  rw [output_color_value_hex [] _ (by decide)]
  intro h
  exact absurd (Except.ok.inj h) (by decide)

/-- C2, as amended: for every string of exactly six hexadecimal digits the
function writes the opener, the three byte values, each with one decimal digit
and each followed by a single space, then the default alpha `256.0`, then the
closer; `FF0000` gives `'(255.0 0.0 0.0 256.0)`. -/
theorem output_color_value_six (oss : OStream) (value : CppString)
    (hlen : value.length = 6) (hhex : ∀ c ∈ value, isHexDigit c) :
    output_color_value oss value = .ok (oss ++ "'(".toList
        ++ oneDecimal (hexGroupValue value 0) ++ " ".toList
        ++ oneDecimal (hexGroupValue value 2) ++ " ".toList
        ++ oneDecimal (hexGroupValue value 4) ++ " ".toList
        ++ "256.0".toList ++ ")".toList)
    ∧ (∀ i, hexGroupValue value i ≤ 255)
    ∧ output_color_value [] "FF0000".toList = .ok "'(255.0 0.0 0.0 256.0)".toList := by
  refine ⟨?_, ?_, ?_⟩
  · rw [output_color_value_hex oss value (fun c hc => hhex c (List.mem_of_mem_take hc))]
    simp [colorText, groupStarts, groupText, hlen]
  · intro i
    exact hexGroupValue_le value i
      (fun c hc => hhex c (List.mem_of_mem_drop (List.mem_of_mem_take hc)))
  · rw [output_color_value_hex [] _ (by decide)]
    exact congrArg Except.ok (by decide)

theorem output_color_value_six_witness :
    ("00ff7F".toList.length = 6 ∧ ∀ c ∈ "00ff7F".toList, isHexDigit c)
    ∧ output_color_value [] "00ff7F".toList = .ok "'(0.0 255.0 127.0 256.0)".toList :=
  ⟨⟨by decide, by decide⟩,
   ((output_color_value_six [] "00ff7F".toList (by decide) (by decide)).1).trans
     (congrArg Except.ok (by decide))⟩

/-- C4: for every string longer than eight characters the function gives
the same result, the same text or the same exception with the same text
before it, as on the first eight characters of the string. -/
theorem output_color_value_truncates (oss : OStream) (value : CppString)
    (hlen : 8 < value.length) :
    output_color_value oss value = output_color_value oss (value.take 8) := by
  have l8 : (value.take 8).length = 8 := by
    rw [List.length_take]; omega
  have e1 : (if value.length > 8 then 8 else value.length) = 8 := by
    split <;> omega
  have e2 : (if (value.take 8).length > 8 then 8 else (value.take 8).length) = 8 := by
    rw [l8]; rfl
  unfold output_color_value
  simp only [e1, e2]
  rw [color_loop_congr value (value.take 8) 8
    (fun i hi heven => (substr_take_eight value i hlen hi heven).symm) 8 0 _ (by omega) rfl]

theorem output_color_value_truncates_witness :
    8 < "0123456zXYZ".toList.length
    ∧ output_color_value [] "0123456zXYZ".toList = output_color_value [] "0123456z".toList :=
  ⟨by decide, output_color_value_truncates [] "0123456zXYZ".toList (by decide)⟩

/-- C5: for every input of hexadecimal digits, of any length, the text
written is the opener, then for each group start among 0, 2, 4, 6 inside the
input the number of the group, followed by exactly one space when the start
is 0, 2 or 4 and by none when it is 6, then the default alpha for an input
shorter than eight, then the closer.  Neither a number nor any other piece
holds a space, so the spaces written are one for each group starting at 0, 2
or 4. -/
theorem output_color_value_spaces (oss : OStream) (value : CppString)
    (hhex : ∀ c ∈ value, isHexDigit c) :
    ∃ written : List Char,
      output_color_value oss value = .ok (oss ++ written)
      ∧ written = "'(".toList
          ++ (([0, 2, 4, 6].filter (fun i => decide (i < value.length))).map
                (fun i => oneDecimal (hexGroupValue value i)
                            ++ (if i < 6 then " ".toList else []))).flatten
          ++ (if value.length < 8 then "256.0".toList else []) ++ ")".toList
      ∧ (∀ i, ' ' ∉ oneDecimal (hexGroupValue value i))
      ∧ ' ' ∉ "'(".toList ∧ ' ' ∉ "256.0".toList ∧ ' ' ∉ ")".toList
      ∧ written.count ' ' = ([0, 2, 4].filter (fun i => decide (i < value.length))).length := by
  have hns : ∀ i, ' ' ∉ oneDecimal (hexGroupValue value i) := fun i =>
    oneDecimal_no_space _ (hexGroupValue_le value i
      (fun c hc => hhex c (List.mem_of_mem_drop (List.mem_of_mem_take hc))))
  refine ⟨colorText value,
    output_color_value_hex oss value (fun c hc => hhex c (List.mem_of_mem_take hc)),
    ?_, hns, by decide, by decide, by decide, count_space_colorText value hns⟩
  unfold colorText
  rw [groupStarts_eq]
  have e : (Nat.min value.length 8 < 8) = (value.length < 8) := by
    simp only [Nat.min_def, eq_iff_iff]
    split <;> omega
  simp only [e]
  rfl

theorem output_color_value_spaces_witness :
    (∀ c ∈ "a0B".toList, isHexDigit c)
    ∧ output_color_value [] "a0B".toList = .ok "'(160.0 11.0 256.0)".toList
    ∧ "'(160.0 11.0 256.0)".toList.count ' ' = 2 := by
  obtain ⟨w, h1, h2, -, -, -, -, -⟩ :=
    output_color_value_spaces [] "a0B".toList (by decide)
  refine ⟨by decide, ?_, by decide⟩
  rw [h1, h2]
  exact congrArg Except.ok (by decide)

/-- C8: for every string of exactly seven hexadecimal digits the seventh
digit is read as a fourth group of one digit, and the default alpha follows
its number with no space: the text is the opener, three byte values each
followed by one space, the value of the seventh digit, `256.0` and the
closer; `FF00008` gives `'(255.0 0.0 0.0 8.0256.0)`. -/
theorem output_color_value_seven (oss : OStream) (value : CppString)
    (hlen : value.length = 7) (hhex : ∀ c ∈ value, isHexDigit c) :
    output_color_value oss value = .ok (oss ++ "'(".toList
        ++ oneDecimal (hexGroupValue value 0) ++ " ".toList
        ++ oneDecimal (hexGroupValue value 2) ++ " ".toList
        ++ oneDecimal (hexGroupValue value 4) ++ " ".toList
        ++ oneDecimal (hexVal (value.getD 6 '0')) ++ "256.0".toList ++ ")".toList)
    ∧ output_color_value [] "FF00008".toList = .ok "'(255.0 0.0 0.0 8.0256.0)".toList := by
  refine ⟨?_, ?_⟩
  · rw [output_color_value_hex oss value (fun c hc => hhex c (List.mem_of_mem_take hc))]
    match value, hlen with
    | [a, b, c, d, e, f, g], _ =>
      simp [colorText, groupStarts, groupText, hexGroupValue]
  · rw [output_color_value_hex [] _ (by decide)]
    exact congrArg Except.ok (by decide)

theorem output_color_value_seven_witness :
    ("0a1B2cD".toList.length = 7 ∧ ∀ c ∈ "0a1B2cD".toList, isHexDigit c)
    ∧ output_color_value [] "0a1B2cD".toList = .ok "'(10.0 27.0 44.0 13.0256.0)".toList :=
  ⟨⟨by decide, by decide⟩,
   ((output_color_value_seven [] "0a1B2cD".toList (by decide) (by decide)).1).trans
     (congrArg Except.ok (by decide))⟩

/-- C9: for every string whose first `min(length, 8)` characters are all
hexadecimal digits, the empty string and strings of odd length included, the
function returns normally; every group it takes (at an even index below the
bound) is non-empty, `stoi` converts it without throwing, and the value lies
in 0..255. -/
theorem output_color_value_returns (oss : OStream) (value : CppString)
    (hhex : ∀ c ∈ value.take (Nat.min value.length 8), isHexDigit c) :
    (∃ out, output_color_value oss value = .ok out)
    ∧ ∀ i, i < Nat.min value.length 8 → i % 2 = 0 →
        ∃ g n, substr value i 2 = .ok g ∧ g ≠ [] ∧ stoi g 16 = .ok n ∧ 0 ≤ n ∧ n ≤ 255 := by
  have hhex8 : ∀ c ∈ value.take 8, isHexDigit c := by
    intro c hc
    apply hhex c
    by_cases hl : value.length ≤ 8
    · have e : Nat.min value.length 8 = value.length := by
        simp only [Nat.min_def]; split <;> omega
      rw [e, List.take_length]
      exact List.mem_of_mem_take hc
    · have e : Nat.min value.length 8 = 8 := by
        simp only [Nat.min_def]; split <;> omega
      rw [e]; exact hc
  refine ⟨⟨_, output_color_value_hex oss value hhex8⟩, ?_⟩
  intro i hi heven
  have hi8 : i + 2 ≤ 8 := by
    have : i < 8 := by simp only [Nat.min_def] at hi; split at hi <;> omega
    omega
  have hil : i < value.length := by
    simp only [Nat.min_def] at hi; split at hi <;> omega
  have hsub : substr value i 2 = .ok ((value.drop i).take 2) := by
    unfold substr
    have : ¬ i > value.length := by omega
    simp only [this, if_false]
  have hmem : ∀ c ∈ (value.drop i).take 2, isHexDigit c :=
    fun c hc => hhex8 c (mem_take_of_mem_take_drop value i c hi8 hc)
  have hlen : 1 ≤ ((value.drop i).take 2).length ∧ ((value.drop i).take 2).length ≤ 2 := by
    rw [List.length_take, List.length_drop]; omega
  revert hsub hmem hlen
  generalize (value.drop i).take 2 = g
  intro hsub hmem hlen
  match g, hsub, hmem, hlen with
  | [], _, _, hlen => simp at hlen
  | [a], hsub, hmem, _ =>
    have ha := hexVal_lt a (hmem a (by simp))
    refine ⟨[a], _, hsub, by simp, stoi_hex_single a (hmem a (by simp)), ?_, ?_⟩ <;> omega
  | [a, b], hsub, hmem, _ =>
    have ha := hexVal_lt a (hmem a (by simp))
    have hb := hexVal_lt b (hmem b (by simp))
    refine ⟨[a, b], _, hsub, by simp,
      stoi_hex_pair a b (hmem a (by simp)) (hmem b (by simp)), ?_, ?_⟩ <;> omega
  | _ :: _ :: _ :: _, _, _, hlen => simp at hlen

theorem output_color_value_returns_witness :
    (∀ c ∈ "abc".toList.take (Nat.min "abc".toList.length 8), isHexDigit c)
    ∧ (∃ out, output_color_value [] "abc".toList = .ok out)
    ∧ ∃ g n, substr "abc".toList 2 2 = .ok g ∧ g ≠ [] ∧ stoi g 16 = .ok n ∧ 0 ≤ n ∧ n ≤ 255 :=
  ⟨by decide,
   (output_color_value_returns [] "abc".toList (by decide)).1,
   (output_color_value_returns [] "abc".toList (by decide)).2 2 (by decide) (by decide)⟩

/-! ## Lemmas on the comparison of strings -/

theorem string_compare_cons (a b : Char) (s t : CppString) :
    string_compare (a :: s) (b :: t) =
      if a < b then -1 else if b < a then 1 else string_compare s t := by
  have hmin : Nat.min (s.length + 1) (t.length + 1) = Nat.min s.length t.length + 1 := by
    simp only [Nat.min_def]; split <;> split <;> omega
  simp only [string_compare, List.length_cons, hmin, traits_compare]
  by_cases h1 : a < b
  · simp [h1]
  · by_cases h2 : b < a
    · simp [h1, h2]
    · simp only [h1, h2, if_false]
      push_cast
      have e : (s.length : Int) + 1 - ((t.length : Int) + 1) = (s.length : Int) - t.length := by
        omega
      rw [e]

theorem string_lt_nil_nil : string_lt [] [] = false := by decide

theorem string_lt_nil_cons (b : Char) (t : CppString) : string_lt [] (b :: t) = true := by
  simp only [string_lt, string_compare, traits_compare, List.length_nil, List.length_cons]
  simp
  omega

theorem string_lt_cons_nil (a : Char) (s : CppString) : string_lt (a :: s) [] = false := by
  simp only [string_lt, string_compare, traits_compare, List.length_nil, List.length_cons]
  simp
  omega

theorem string_lt_cons_cons (a b : Char) (s t : CppString) :
    string_lt (a :: s) (b :: t) = true ↔ a < b ∨ (a = b ∧ string_lt s t = true) := by
  simp only [string_lt, string_compare_cons, decide_eq_true_eq]
  rcases lt_trichotomy a b with h | h | h
  · simp [h]
  · subst h; simp
  · have h1 : ¬ a < b := lt_asymm h
    have h2 : a ≠ b := ne_of_gt h
    simp [h, h1, h2]

theorem string_lt_iff_lex (s t : CppString) :
    string_lt s t = true ↔ List.Lex (· < ·) s t := by
  induction s generalizing t with
  | nil =>
    cases t with
    | nil => simp [string_lt_nil_nil]
    | cons b t => simp [string_lt_nil_cons, List.Lex.nil]
  | cons a s ih =>
    cases t with
    | nil => simp [string_lt_cons_nil]
    | cons b t =>
      rw [string_lt_cons_cons, ih]
      constructor
      · rintro (h | ⟨rfl, h⟩)
        · exact List.Lex.rel h
        · exact List.Lex.cons h
      · intro h
        cases h with
        | cons h => exact Or.inr ⟨rfl, h⟩
        | rel h => exact Or.inl h

theorem string_lt_irrefl (s : CppString) : string_lt s s = false := by
  induction s with
  | nil => exact string_lt_nil_nil
  | cons a s ih =>
    have h := string_lt_cons_cons a a s s
    cases hs : string_lt (a :: s) (a :: s) with
    | false => rfl
    | true =>
      rcases h.mp hs with h1 | ⟨_, h1⟩
      · exact absurd h1 (lt_irrefl a)
      · rw [ih] at h1; exact absurd h1 (by decide)

theorem string_lt_trans (s t u : CppString) (h1 : string_lt s t = true)
    (h2 : string_lt t u = true) : string_lt s u = true := by
  induction s generalizing t u with
  | nil =>
    cases u with
    | nil =>
      cases t with
      | nil => exact h1
      | cons b t => rw [string_lt_cons_nil] at h2; exact absurd h2 (by decide)
    | cons c u => exact string_lt_nil_cons c u
  | cons a s ih =>
    cases t with
    | nil => rw [string_lt_cons_nil] at h1; exact absurd h1 (by decide)
    | cons b t =>
      cases u with
      | nil => rw [string_lt_cons_nil] at h2; exact absurd h2 (by decide)
      | cons c u =>
        rw [string_lt_cons_cons] at h1 h2 ⊢
        rcases h1 with h1 | ⟨rfl, h1⟩
        · rcases h2 with h2 | ⟨rfl, _⟩
          · exact Or.inl (lt_trans h1 h2)
          · exact Or.inl h1
        · rcases h2 with h2 | ⟨rfl, h2⟩
          · exact Or.inl h2
          · exact Or.inr ⟨rfl, ih t u h1 h2⟩

theorem string_incomparable_iff (s t : CppString) :
    (string_lt s t = false ∧ string_lt t s = false) ↔ s = t := by
  constructor
  · intro h
    induction s generalizing t with
    | nil =>
      cases t with
      | nil => rfl
      | cons b t => rw [string_lt_nil_cons] at h; exact absurd h.1 (by decide)
    | cons a s ih =>
      cases t with
      | nil => rw [string_lt_nil_cons] at h; exact absurd h.2 (by decide)
      | cons b t =>
        obtain ⟨h1, h2⟩ := h
        have n1 : ¬ (a < b ∨ (a = b ∧ string_lt s t = true)) := by
          rw [← string_lt_cons_cons]; simp [h1]
        have n2 : ¬ (b < a ∨ (b = a ∧ string_lt t s = true)) := by
          rw [← string_lt_cons_cons]; simp [h2]
        push_neg at n1 n2
        have hab : a = b := by
          rcases lt_trichotomy a b with h | h | h
          · exact absurd h (not_lt.mpr n1.1)
          · exact h
          · exact absurd h (not_lt.mpr n2.1)
        subst hab
        have e1 : string_lt s t = false := by
          cases hh : string_lt s t with
          | false => rfl
          | true => exact absurd hh (n1.2 rfl)
        have e2 : string_lt t s = false := by
          cases hh : string_lt t s with
          | false => rfl
          | true => exact absurd hh (n2.2 rfl)
        rw [ih t ⟨e1, e2⟩]
  · rintro rfl
    exact ⟨string_lt_irrefl s, string_lt_irrefl s⟩

/-! ## Theorems on the ordering of options -/

/-- C3: for all options A and B, `A < B` holds exactly when the key of A is
lexicographically less than the key of B; the result is the same for any two
options with these keys, whatever their other fields, and options with equal
keys are unordered both ways. -/
theorem operator_lt_key_only (A B : GncOption) :
    (A.operator_lt B = true ↔ List.Lex (· < ·) A.get_key B.get_key)
    ∧ (∀ A' B' : GncOption, A'.get_key = A.get_key → B'.get_key = B.get_key →
        A'.operator_lt B' = A.operator_lt B)
    ∧ (A.get_key = B.get_key → A.operator_lt B = false ∧ B.operator_lt A = false) := by
  refine ⟨string_lt_iff_lex _ _, ?_, ?_⟩
  · intro A' B' hA hB
    simp only [GncOption.operator_lt, hA, hB]
  · intro h
    simp only [GncOption.operator_lt, h]
    exact ⟨string_lt_irrefl _, string_lt_irrefl _⟩

theorem operator_lt_key_only_witness :
    (textOption "General" "Title" "a1").get_key = (textOption "Display" "Width" "a1").get_key
    ∧ (textOption "General" "Title" "a1").operator_lt (textOption "Display" "Width" "a1") = false
    ∧ (textOption "Display" "Width" "a1").operator_lt (textOption "General" "Title" "a1") = false :=
  ⟨by decide,
   (operator_lt_key_only (textOption "General" "Title" "a1")
      (textOption "Display" "Width" "a1")).2.2 (by decide)⟩

/-- C10: the ordering of options is a strict weak order: irreflexive,
asymmetric and transitive, and incomparability, which is equality of keys, is
reflexive, symmetric and transitive. -/
theorem operator_lt_strict_weak_order :
    (∀ A : GncOption, A.operator_lt A = false)
    ∧ (∀ A B : GncOption, A.operator_lt B = true → B.operator_lt A = false)
    ∧ (∀ A B C : GncOption, A.operator_lt B = true → B.operator_lt C = true →
        A.operator_lt C = true)
    ∧ (∀ A B : GncOption, incomparable A B ↔ A.get_key = B.get_key)
    ∧ (∀ A : GncOption, incomparable A A)
    ∧ (∀ A B : GncOption, incomparable A B → incomparable B A)
    ∧ (∀ A B C : GncOption, incomparable A B → incomparable B C → incomparable A C) := by
  have hinc : ∀ A B : GncOption, incomparable A B ↔ A.get_key = B.get_key :=
    fun A B => string_incomparable_iff _ _
  refine ⟨fun A => string_lt_irrefl _, ?_, ?_, hinc, ?_, ?_, ?_⟩
  · intro A B h
    cases hBA : B.operator_lt A with
    | false => rfl
    | true =>
      have hAA := string_lt_trans _ _ _ h hBA
      rw [string_lt_irrefl] at hAA
      exact absurd hAA (by decide)
  · intro A B C h1 h2
    exact string_lt_trans _ _ _ h1 h2
  · intro A
    exact (hinc A A).mpr rfl
  · intro A B h
    exact ⟨h.2, h.1⟩
  · intro A B C h1 h2
    exact (hinc A C).mpr (((hinc A B).mp h1).trans ((hinc B C).mp h2))

theorem operator_lt_strict_weak_order_witness :
    (textOption "S" "n" "abc").operator_lt (textOption "T" "m" "abd") = true
    ∧ (textOption "T" "m" "abd").operator_lt (textOption "U" "k" "b") = true
    ∧ (textOption "S" "n" "abc").operator_lt (textOption "U" "k" "b") = true
    ∧ (textOption "T" "m" "abd").operator_lt (textOption "S" "n" "abc") = false :=
  ⟨by decide, by decide,
   operator_lt_strict_weak_order.2.2.1 (textOption "S" "n" "abc") (textOption "T" "m" "abd")
     (textOption "U" "k" "b") (by decide) (by decide),
   operator_lt_strict_weak_order.2.1 (textOption "S" "n" "abc") (textOption "T" "m" "abd")
     (by decide)⟩

/-! ## Theorems on `get_limits` and the stream operators -/

/-- C6 as stated fails: on a scalar option no body of `get_limits` makes a
`TypeMismatch` reach the caller. -/
theorem get_limits_scalar_no_TypeMismatch :
    (textOption "General" "Title" "a1").m_option.is_RangeValue = false
    ∧ ∀ body : GncOption → Int × Int × Int → Except OptionError (Int × Int × Int),
        GncOption.get_limits body (textOption "General" "Title" "a1") (0, 0, 0)
          ≠ .raised .TypeMismatch := by
  refine ⟨rfl, fun body => ?_⟩
  unfold GncOption.get_limits noexcept_call
  cases body (textOption "General" "Title" "a1") (0, 0, 0) with
  | ok r => intro h; cases h
  | error e => intro h; cases h

/-- C6, as amended: `get_limits` is `noexcept` and returns `void`, so on any
option, one whose kind is not a range included, no error reaches the caller:
the call returns with what its body left in the three references, or, when
its body throws, the process is terminated. -/
theorem get_limits_never_raises {ε T : Type}
    (body : GncOption → T × T × T → Except ε (T × T × T))
    (opt : GncOption) (refs : T × T × T) :
    (∀ e : ε, GncOption.get_limits body opt refs ≠ .raised e)
    ∧ ((∃ r, body opt refs = .ok r ∧ GncOption.get_limits body opt refs = .returned r)
       ∨ (∃ e, body opt refs = .error e ∧ GncOption.get_limits body opt refs = .terminated)) := by
  unfold GncOption.get_limits noexcept_call
  cases h : body opt refs with
  | ok r => exact ⟨fun e he => (by cases he), Or.inl ⟨r, rfl, rfl⟩⟩
  | error e => exact ⟨fun e' he => (by cases he), Or.inr ⟨e, rfl, rfl⟩⟩

/-- C7: the stream operators are the text codec: `oss << opt` is
`opt.out_stream(oss)` and `iss >> opt` is `opt.in_stream(iss)`, in effect and
in the stream returned. -/
theorem stream_operators_are_codec {ε σ : Type} (codec : StreamCodec ε σ)
    (opt : GncOption) (st : σ) :
    (∀ oss : Nat, operator_shl codec oss opt st = codec.out_stream opt oss st)
    ∧ (∀ iss : Nat, operator_shr codec iss opt st = codec.in_stream opt iss st) :=
  ⟨fun _ => rfl, fun _ => rfl⟩

end GncOptionSpec
